import Mathlib

/-!
Verification of the room-assignment core (`solver.py`, function `solve_assignment`)
against its natural-language specification.

The CP-SAT model built by `solve_assignment` is embedded shallowly:

* the decision variables `x[p,r]`, `y[r,g]`, `has_teacher[r]`, `has_student[r]`
  become the boolean fields of `Sol`;
* each `model.Add(...)` line becomes a proposition over `Sol` (the `c...`
  definitions below), and `HardSat` is their conjunction;
* the auxiliary variables created while assembling the objective
  (`z`, `occupied`, `extra_classes`, `bad_gender_mix`, `extra_teachers`,
  `class_on_c`, `teacher_on_c`, `teacher_mismatch`) become the fields of `Aux`,
  their constraints become `ObjConstraints`, and the minimized expression
  becomes `objValue`;
* the external CP-SAT solver is modelled as a complete, ideal solver: the
  executable `solve_assignment` below enumerates all candidate assignments,
  keeps the feasible ones and returns the extraction of an objective-minimal
  one (wall-clock time limits, worker counts and progress callbacks are
  runtime artefacts with no effect on the value semantics modelled here).

Python dictionaries are embedded as association lists whose key lists are
assumed duplicate-free where that matters (a Python dict cannot hold a
duplicate key).  Gender and role are embedded as two-element inductive types,
matching the validated value sets used by the code (`"m"/"w"`,
`"student"/"teacher"`).
-/

/-- Gender of a person, the code's validated `"m"` / `"w"` strings. -/
inductive Gender where
  | m : Gender
  | w : Gender
deriving DecidableEq, Repr

/-- Role of a person, the code's validated `"student"` / `"teacher"` strings. -/
inductive Role where
  | student : Role
  | teacher : Role
deriving DecidableEq, Repr

/-- One value of the `people` mapping: name, gender, role, optional class id,
optional small-group cap (`small_group_max`). -/
structure Person where
  name : String
  gender : Gender
  role : Role
  class_id : Option String
  small_group_max : Option Int
deriving DecidableEq, Repr

/-- One value of the `rooms` mapping: name, capacity and corridor label. -/
structure Room where
  name : String
  capacity : Nat
  corridor : String
deriving DecidableEq, Repr

/-- The five inputs of `solve_assignment`.  The Python dictionaries `people`,
`rooms` and `required_teachers_per_corridor` are embedded as association
lists in key order. -/
structure Input where
  people : List (String × Person)
  rooms : List (String × Room)
  forbidden_pairs : List (String × String)
  corridors : List String
  required_teachers_per_corridor : List (String × List String)

namespace Input

/-- Number of persons, the length of `persons = list(people.keys())`. -/
def nPersons (inp : Input) : Nat := inp.people.length

/-- Number of rooms, the length of `room_ids = list(rooms.keys())`. -/
def nRooms (inp : Input) : Nat := inp.rooms.length

/-- Person id at position `i` of the `people` mapping. -/
def personId (inp : Input) (i : Fin inp.nPersons) : String := (inp.people.get i).1

/-- Person record at position `i` of the `people` mapping. -/
def personOf (inp : Input) (i : Fin inp.nPersons) : Person := (inp.people.get i).2

/-- Room id at position `j` of the `rooms` mapping. -/
def roomId (inp : Input) (j : Fin inp.nRooms) : String := (inp.rooms.get j).1

/-- Room record at position `j` of the `rooms` mapping. -/
def roomOf (inp : Input) (j : Fin inp.nRooms) : Room := (inp.rooms.get j).2

/-- First position holding id `a`, the index used by the dict accesses
`people[a]` / `x[a, r]` (a Python dict holds each key once). -/
def pidx (inp : Input) (a : String) : Option (Fin inp.nPersons) :=
  (List.finRange inp.nPersons).find? (fun i => inp.personId i == a)

/-- Positions of the students, the code's
`students = [p for p in persons if people[p]["role"] == "student"]`. -/
def studentIdxs (inp : Input) : List (Fin inp.nPersons) :=
  (List.finRange inp.nPersons).filter (fun i => (inp.personOf i).role == Role.student)

/-- Positions of the teachers, the code's
`teachers = [p for p in persons if people[p]["role"] == "teacher"]`. -/
def teacherIdxs (inp : Input) : List (Fin inp.nPersons) :=
  (List.finRange inp.nPersons).filter (fun i => (inp.personOf i).role == Role.teacher)

/-- Whether id `t` names a person whose role is teacher — the code's
membership test `t in teachers`. -/
def isTeacherId (inp : Input) (t : String) : Bool :=
  match inp.pidx t with
  | some i => (inp.personOf i).role == Role.teacher
  | none => false

/-- The distinct class ids of the students, the code's
`classes = sorted(set(class_id of students ≠ None))`.  Only the underlying
set (membership and cardinality) of this list is ever used, so deduplication
order does not matter. -/
def classes (inp : Input) : List String :=
  ((inp.people.filter (fun q => q.2.role == Role.student)).filterMap
    (fun q => q.2.class_id)).dedup

/-- Rooms lying on corridor `c`, the code's
`[r for r in room_ids if rooms[r]["corridor"] == c]`. -/
def roomsOnCorridor (inp : Input) (c : String) : List (Fin inp.nRooms) :=
  (List.finRange inp.nRooms).filter (fun j => (inp.roomOf j).corridor == c)

/-- Required-teacher list for corridor `c`, the code's
`required_teachers_per_corridor.get(c, [])`. -/
def requiredFor (inp : Input) (c : String) : List String :=
  ((inp.required_teachers_per_corridor.find? (fun q => q.1 == c)).map (·.2)).getD []

/-- Whether position `i` is a student of class `k`. -/
def isStudentOfClass (inp : Input) (i : Fin inp.nPersons) (k : String) : Bool :=
  (inp.personOf i).role == Role.student && (inp.personOf i).class_id == some k

end Input

/-- Sum of a natural-valued function over a list (the embedding of Python
`sum(f(a) for a in l)`). -/
def sumN {α : Type} (l : List α) (f : α → Nat) : Nat := (l.map f).sum

/-- Sum of an integer-valued function over a list. -/
def sumZ {α : Type} (l : List α) (f : α → Int) : Int := (l.map f).sum

/-- The boolean decision variables of the model: `x[p,r]` (person `p` occupies
room `r`), `y[r,g]` (room `r` is occupied by gender `g`), `has_teacher[r]`
and `has_student[r]`. -/
structure Sol (n m : Nat) where
  x : Fin n → Fin m → Bool
  y : Fin m → Gender → Bool
  has_teacher : Fin m → Bool
  has_student : Fin m → Bool

namespace Model

open Input

/-- Occupancy of room `j` under `x`: `sum(x[p, r] for p in persons)`. -/
def occupancy (inp : Input) (x : Fin inp.nPersons → Fin inp.nRooms → Bool)
    (j : Fin inp.nRooms) : Nat :=
  sumN (List.finRange inp.nPersons) (fun i => (x i j).toNat)

/-- Number of teachers in room `j`: `sum(x[t, r] for t in teachers)`. -/
def teacherCount (inp : Input) (x : Fin inp.nPersons → Fin inp.nRooms → Bool)
    (j : Fin inp.nRooms) : Nat :=
  sumN inp.teacherIdxs (fun t => (x t j).toNat)

/-- Constraint 1 of the code: every person lies in exactly one room,
`sum(x[p, r] for r in room_ids) == 1`. -/
def cAssignedOnce (inp : Input) (s : Sol inp.nPersons inp.nRooms) : Prop :=
  ∀ i, sumN (List.finRange inp.nRooms) (fun j => (s.x i j).toNat) = 1

/-- Constraint 2 of the code: room occupancy is bounded by capacity,
`sum(x[p, r] for p in persons) <= rooms[r]["capacity"]`. -/
def cCapacity (inp : Input) (s : Sol inp.nPersons inp.nRooms) : Prop :=
  ∀ j, occupancy inp s.x j ≤ (inp.roomOf j).capacity

/-- Constraint 3 of the code: per room at most one gender flag is set and an
occupant forces the flag of their gender,
`sum(y[r, g]) <= 1` and `x[p, r] <= y[r, gender(p)]`. -/
def cGenderSep (inp : Input) (s : Sol inp.nPersons inp.nRooms) : Prop :=
  ∀ j, (s.y j Gender.m).toNat + (s.y j Gender.w).toNat ≤ 1 ∧
    ∀ i, (s.x i j).toNat ≤ (s.y j (inp.personOf i).gender).toNat

/-- Constraint 4 of the code: for a forbidden pair whose two ids both occur in
`persons`, the two never share a room, `x[a, r] + x[b, r] <= 1`.  Pairs with a
missing id generate no constraint (the code's guard
`if a in persons and b in persons`). -/
def cForbidden (inp : Input) (s : Sol inp.nPersons inp.nRooms) : Prop :=
  ∀ p ∈ inp.forbidden_pairs, ∀ ia ib,
    inp.pidx p.1 = some ia → inp.pidx p.2 = some ib →
      ∀ j, (s.x ia j).toNat + (s.x ib j).toNat ≤ 1

/-- Constraint 5 of the code: the small-group cap,
`sum(x[q, r] for q) - kmax <= (1 - x[p, r]) * cap`, added only when
`small_group_max` is present. -/
def cSmallGroup (inp : Input) (s : Sol inp.nPersons inp.nRooms) : Prop :=
  ∀ i, ∀ k ∈ (inp.personOf i).small_group_max,
    ∀ j, (occupancy inp s.x j : Int) - k ≤
      (1 - ((s.x i j).toNat : Int)) * ((inp.roomOf j).capacity : Int)

/-- Constraint 6a of the code: when teachers exist and corridor `c` has rooms,
at least one teacher lies on `c`,
`sum(x[t, r] for t in teachers for r in rooms_on_c) >= 1`. -/
def cCorridorTeacher (inp : Input) (s : Sol inp.nPersons inp.nRooms) : Prop :=
  ∀ c ∈ inp.corridors, inp.teacherIdxs ≠ [] → inp.roomsOnCorridor c ≠ [] →
    1 ≤ sumN inp.teacherIdxs
      (fun t => sumN (inp.roomsOnCorridor c) (fun j => (s.x t j).toNat))

/-- Constraint 6b of the code: a required teacher of corridor `c` that really
is a teacher occupies exactly one room on `c`,
`sum(x[t, r] for r in rooms_on_c) == 1`; ids failing `t in teachers` are
skipped. -/
def cRequiredTeachers (inp : Input) (s : Sol inp.nPersons inp.nRooms) : Prop :=
  ∀ c ∈ inp.corridors, ∀ t ∈ inp.requiredFor c, ∀ it,
    inp.pidx t = some it → (inp.personOf it).role = Role.teacher →
      sumN (inp.roomsOnCorridor c) (fun j => (s.x it j).toNat) = 1

/-- Constraint 8 of the code: hard role separation,
`has_teacher[r] >= x[t, r]`, `has_student[r] >= x[s, r]`,
`has_teacher[r] + has_student[r] <= 1`. -/
def cRoleSep (inp : Input) (s : Sol inp.nPersons inp.nRooms) : Prop :=
  ∀ j, (∀ i, (inp.personOf i).role = Role.teacher →
        (s.x i j).toNat ≤ (s.has_teacher j).toNat) ∧
    (∀ i, (inp.personOf i).role = Role.student →
        (s.x i j).toNat ≤ (s.has_student j).toNat) ∧
    (s.has_teacher j).toNat + (s.has_student j).toNat ≤ 1

/-- Conjunction of all hard constraints of the model (code sections 1–6
and 8; section 7 and the objective-section constraints involve only the
auxiliary variables and are collected in `ObjConstraints`). -/
def HardSat (inp : Input) (s : Sol inp.nPersons inp.nRooms) : Prop :=
  cAssignedOnce inp s ∧ cCapacity inp s ∧ cGenderSep inp s ∧ cForbidden inp s ∧
    cSmallGroup inp s ∧ cCorridorTeacher inp s ∧ cRequiredTeachers inp s ∧
    cRoleSep inp s

instance decCAssignedOnce (inp : Input) (s : Sol inp.nPersons inp.nRooms) :
    Decidable (cAssignedOnce inp s) := by
  unfold cAssignedOnce; infer_instance

instance decCCapacity (inp : Input) (s : Sol inp.nPersons inp.nRooms) :
    Decidable (cCapacity inp s) := by
  unfold cCapacity; infer_instance

instance decCGenderSep (inp : Input) (s : Sol inp.nPersons inp.nRooms) :
    Decidable (cGenderSep inp s) := by
  unfold cGenderSep; infer_instance

instance decCForbidden (inp : Input) (s : Sol inp.nPersons inp.nRooms) :
    Decidable (cForbidden inp s) := by
  unfold cForbidden; infer_instance

instance decCSmallGroup (inp : Input) (s : Sol inp.nPersons inp.nRooms) :
    Decidable (cSmallGroup inp s) := by
  unfold cSmallGroup; infer_instance

instance decCCorridorTeacher (inp : Input) (s : Sol inp.nPersons inp.nRooms) :
    Decidable (cCorridorTeacher inp s) := by
  unfold cCorridorTeacher; infer_instance

instance decCRequiredTeachers (inp : Input) (s : Sol inp.nPersons inp.nRooms) :
    Decidable (cRequiredTeachers inp s) := by
  unfold cRequiredTeachers; infer_instance

instance decCRoleSep (inp : Input) (s : Sol inp.nPersons inp.nRooms) :
    Decidable (cRoleSep inp s) := by
  unfold cRoleSep; infer_instance

instance decHardSat (inp : Input) (s : Sol inp.nPersons inp.nRooms) :
    Decidable (HardSat inp s) := by
  unfold HardSat; infer_instance

end Model

/-- The auxiliary variables created while the objective is assembled:
`z[r,k]`, `occupied[r]`, `extra_classes[r]`, `bad_gender_mix[r]`,
`extra_teachers[r]`, `class_on_c[c,k]`, `teacher_on_c[t,c]` and
`teacher_mismatch[t,c]`.  Class and corridor labels index by their string. -/
structure Aux (n m : Nat) where
  z : Fin m → String → Bool
  occupied : Fin m → Bool
  extra_classes : Fin m → Nat
  both_gender : Fin m → Bool
  extra_teachers : Fin m → Nat
  class_on_c : String → String → Bool
  teacher_on_c : Fin n → String → Bool
  mismatch : Fin n → String → Bool

namespace Model

open Input

/-- Whether teacher position `i` carries a usable class affinity: the code's
guards `if not k_t: continue` (a missing or falsy — empty — class id) and
`if k_t not in classes: continue`. -/
def hasAffinity (inp : Input) (i : Fin inp.nPersons) : Bool :=
  match (inp.personOf i).class_id with
  | some k => k != "" && inp.classes.contains k
  | none => false

/-- Constraint 7 of the code: `z[r,k] >= x[p,r]` for every student `p` of
class `k`. -/
def cZ (inp : Input) (s : Sol inp.nPersons inp.nRooms)
    (a : Aux inp.nPersons inp.nRooms) : Prop :=
  ∀ j, ∀ k ∈ inp.classes, ∀ i, inp.isStudentOfClass i k = true →
    (s.x i j).toNat ≤ (a.z j k).toNat

/-- Reified occupancy indicator of the objective section:
`sum(x) >= 1` under `occupied_r` and `sum(x) == 0` under `occupied_r.Not()`. -/
def cOccupied (inp : Input) (s : Sol inp.nPersons inp.nRooms)
    (a : Aux inp.nPersons inp.nRooms) : Prop :=
  ∀ j, (a.occupied j = true → 1 ≤ occupancy inp s.x j) ∧
    (a.occupied j = false → occupancy inp s.x j = 0)

/-- Domain of `extra_classes[r]`: `NewIntVar(0, max(0, len(classes) - 1) if
classes else 0)`; both branches equal the truncated subtraction
`len(classes) - 1`. -/
def cExtraClassesDomain (inp : Input) (a : Aux inp.nPersons inp.nRooms) : Prop :=
  ∀ j, a.extra_classes j ≤ inp.classes.length - 1

/-- Lower bound of `extra_classes[r]`, added only when classes exist:
`extra_classes >= num_classes_in_r - 1`. -/
def cExtraClassesLower (inp : Input) (a : Aux inp.nPersons inp.nRooms) : Prop :=
  inp.classes ≠ [] → ∀ j,
    (sumN inp.classes (fun k => (a.z j k).toNat) : Int) - 1 ≤ a.extra_classes j

/-- Upper bound tying `extra_classes[r]` to the occupancy indicator:
`extra_classes <= (len(classes) if classes else 0) * occupied_r`; both
branches equal `len(classes)` times the indicator. -/
def cExtraClassesUpper (inp : Input) (a : Aux inp.nPersons inp.nRooms) : Prop :=
  ∀ j, a.extra_classes j ≤ inp.classes.length * (a.occupied j).toNat

/-- Cross-gender safety-net constraints (`PENALTY_CROSS_GENDER_ROOM > 0`):
`y[r,m] + y[r,w] - both_gender <= 1`, `both_gender <= y[r,m]`,
`both_gender <= y[r,w]`. -/
def cBothGender (inp : Input) (s : Sol inp.nPersons inp.nRooms)
    (a : Aux inp.nPersons inp.nRooms) : Prop :=
  ∀ j, ((s.y j Gender.m).toNat + (s.y j Gender.w).toNat : Int) -
      (a.both_gender j).toNat ≤ 1 ∧
    (a.both_gender j).toNat ≤ (s.y j Gender.m).toNat ∧
    (a.both_gender j).toNat ≤ (s.y j Gender.w).toNat

/-- Teacher-sharing constraints, added when teachers exist
(`TEACHER_SHARED_ROOM_PENALTY > 0 and teachers`): `extra_teachers` ranges over
`0..len(teachers)` and satisfies `extra_teachers >= num_teachers_in_r - 1`. -/
def cExtraTeachers (inp : Input) (s : Sol inp.nPersons inp.nRooms)
    (a : Aux inp.nPersons inp.nRooms) : Prop :=
  inp.teacherIdxs ≠ [] → ∀ j,
    a.extra_teachers j ≤ inp.teacherIdxs.length ∧
    (teacherCount inp s.x j : Int) - 1 ≤ a.extra_teachers j

/-- Corridor class-presence flags: `class_on_c[c,k] >= x[p,r]` for every
student `p` of class `k` and every room `r` on corridor `c`. -/
def cClassOnC (inp : Input) (s : Sol inp.nPersons inp.nRooms)
    (a : Aux inp.nPersons inp.nRooms) : Prop :=
  ∀ c ∈ inp.corridors, ∀ k ∈ inp.classes, ∀ j ∈ inp.roomsOnCorridor c,
    ∀ i, inp.isStudentOfClass i k = true →
      (s.x i j).toNat ≤ (a.class_on_c c k).toNat

/-- Corridor teacher-presence flags: `teacher_on_c[t,c] >= x[t,r]` for every
room `r` on corridor `c`. -/
def cTeacherOnC (inp : Input) (s : Sol inp.nPersons inp.nRooms)
    (a : Aux inp.nPersons inp.nRooms) : Prop :=
  ∀ i, (inp.personOf i).role = Role.teacher → ∀ c ∈ inp.corridors,
    ∀ j ∈ inp.roomsOnCorridor c, (s.x i j).toNat ≤ (a.teacher_on_c i c).toNat

/-- Mismatch linearization for a teacher with a usable class affinity `k`:
`m <= teacher_on_c`, `m <= 1 - class_on_c[c,k]`,
`m >= teacher_on_c - class_on_c[c,k]`. -/
def cMismatch (inp : Input) (a : Aux inp.nPersons inp.nRooms) : Prop :=
  ∀ i, (inp.personOf i).role = Role.teacher →
    ∀ k ∈ (inp.personOf i).class_id, k ≠ "" → k ∈ inp.classes →
      ∀ c ∈ inp.corridors,
        (a.mismatch i c).toNat ≤ (a.teacher_on_c i c).toNat ∧
        ((a.mismatch i c).toNat : Int) ≤ 1 - (a.class_on_c c k).toNat ∧
        ((a.teacher_on_c i c).toNat : Int) - (a.class_on_c c k).toNat ≤
          (a.mismatch i c).toNat

/-- All constraints imposed on the auxiliary variables (code section 7 and
the objective-assembly section). -/
def ObjConstraints (inp : Input) (s : Sol inp.nPersons inp.nRooms)
    (a : Aux inp.nPersons inp.nRooms) : Prop :=
  cZ inp s a ∧ cOccupied inp s a ∧ cExtraClassesDomain inp a ∧
    cExtraClassesLower inp a ∧ cExtraClassesUpper inp a ∧ cBothGender inp s a ∧
    cExtraTeachers inp s a ∧ cClassOnC inp s a ∧ cTeacherOnC inp s a ∧
    cMismatch inp a

instance decCZ (inp : Input) (s : Sol inp.nPersons inp.nRooms)
    (a : Aux inp.nPersons inp.nRooms) : Decidable (cZ inp s a) := by
  unfold cZ; infer_instance

instance decCOccupied (inp : Input) (s : Sol inp.nPersons inp.nRooms)
    (a : Aux inp.nPersons inp.nRooms) : Decidable (cOccupied inp s a) := by
  unfold cOccupied; infer_instance

instance decCExtraClassesDomain (inp : Input) (a : Aux inp.nPersons inp.nRooms) :
    Decidable (cExtraClassesDomain inp a) := by
  unfold cExtraClassesDomain; infer_instance

instance decCExtraClassesLower (inp : Input) (a : Aux inp.nPersons inp.nRooms) :
    Decidable (cExtraClassesLower inp a) := by
  unfold cExtraClassesLower; infer_instance

instance decCExtraClassesUpper (inp : Input) (a : Aux inp.nPersons inp.nRooms) :
    Decidable (cExtraClassesUpper inp a) := by
  unfold cExtraClassesUpper; infer_instance

instance decCBothGender (inp : Input) (s : Sol inp.nPersons inp.nRooms)
    (a : Aux inp.nPersons inp.nRooms) : Decidable (cBothGender inp s a) := by
  unfold cBothGender; infer_instance

instance decCExtraTeachers (inp : Input) (s : Sol inp.nPersons inp.nRooms)
    (a : Aux inp.nPersons inp.nRooms) : Decidable (cExtraTeachers inp s a) := by
  unfold cExtraTeachers; infer_instance

instance decCClassOnC (inp : Input) (s : Sol inp.nPersons inp.nRooms)
    (a : Aux inp.nPersons inp.nRooms) : Decidable (cClassOnC inp s a) := by
  unfold cClassOnC; infer_instance

instance decCTeacherOnC (inp : Input) (s : Sol inp.nPersons inp.nRooms)
    (a : Aux inp.nPersons inp.nRooms) : Decidable (cTeacherOnC inp s a) := by
  unfold cTeacherOnC; infer_instance

instance decCMismatch (inp : Input) (a : Aux inp.nPersons inp.nRooms) :
    Decidable (cMismatch inp a) := by
  unfold cMismatch; infer_instance

instance decObjConstraints (inp : Input) (s : Sol inp.nPersons inp.nRooms)
    (a : Aux inp.nPersons inp.nRooms) : Decidable (ObjConstraints inp s a) := by
  unfold ObjConstraints; infer_instance

/-- Key set of the mismatch dictionary: teachers with a usable class affinity
paired with every corridor. -/
def mismatchKeys (inp : Input) : List (Fin inp.nPersons × String) :=
  ((inp.teacherIdxs.filter (fun i => hasAffinity inp i)).map
    (fun i => inp.corridors.map (fun c => (i, c)))).flatten

/-- The expression handed to `model.Minimize`: the sum of `objective_terms`.
The weights are the module constants
`PENALTY_CLASS_MIX_PER_EXTRA_CLASS = 3` (added only when classes exist),
`PENALTY_EMPTY_BED = 0` (term disabled by its `> 0` guard),
`PENALTY_CROSS_GENDER_ROOM = 1000`,
`TEACHER_SHARED_ROOM_PENALTY = 2` (added only when teachers exist) and
`PENALTY_TEACHER_WRONG_CORRIDOR = 5`. -/
def objValue (inp : Input) (a : Aux inp.nPersons inp.nRooms) : Int :=
  (if inp.classes.isEmpty then 0 else
    sumZ (List.finRange inp.nRooms) (fun j => (a.extra_classes j : Int) * 3)) +
  sumZ (List.finRange inp.nRooms)
    (fun j => ((a.both_gender j).toNat : Int) * 1000) +
  (if inp.teacherIdxs.isEmpty then 0 else
    sumZ (List.finRange inp.nRooms) (fun j => (a.extra_teachers j : Int) * 2)) +
  sumZ (mismatchKeys inp)
    (fun ic => ((a.mismatch ic.1 ic.2).toNat : Int) * 5)

/-- Classes having at least one member in room `j` under `x`. -/
def classesInRoom (inp : Input) (x : Fin inp.nPersons → Fin inp.nRooms → Bool)
    (j : Fin inp.nRooms) : List String :=
  inp.classes.filter (fun k =>
    (List.finRange inp.nPersons).any (fun i => inp.isStudentOfClass i k && x i j))

/-- Value of the objective after minimizing over the auxiliary variables for
a fixed feasible `x`: 3 per extra class in a room plus 2 per extra teacher in
a room.  The cross-gender term minimizes to zero because the hard gender
constraint keeps `y[r,m] + y[r,w] <= 1`, and every mismatch term minimizes to
zero because `class_on_c` is only bounded from below, so setting it to 1
frees the mismatch variable. -/
def minObjective (inp : Input)
    (x : Fin inp.nPersons → Fin inp.nRooms → Bool) : Nat :=
  sumN (List.finRange inp.nRooms)
    (fun j => 3 * ((classesInRoom inp x j).length - 1)) +
  sumN (List.finRange inp.nRooms) (fun j => 2 * (teacherCount inp x j - 1))

end Model

/-- One occupant snapshot of the returned allocation:
`{"id": p, "name": ..., "gender": ..., "role": ..., "class_id": ...}`. -/
structure OccupantInfo where
  id : String
  name : String
  gender : Gender
  role : Role
  class_id : Option String
deriving DecidableEq, Repr

/-- The `stats` entries of the result that have value semantics
(`persons` and `rooms`; wall-clock time and incumbent counts are runtime
artefacts outside the embedding). -/
structure SolveStats where
  persons : Nat
  rooms : Nat
deriving DecidableEq, Repr

/-- The dictionary returned by `solve_assignment` on success: `allocation`,
`objective` (an integral value in every reachable model), `status`
(the CP-SAT status code) and `stats`. -/
structure SolveResult where
  allocation : List (String × List OccupantInfo)
  objective : Int
  status : Nat
  stats : SolveStats
deriving DecidableEq, Repr

namespace Model

open Input

/-- Occupant snapshots of room `j`, in `persons` order, mirroring the
extraction loop `for p in persons: if solver.Value(x[p, r]) == 1: append`. -/
def occupantsOf (inp : Input) (x : Fin inp.nPersons → Fin inp.nRooms → Bool)
    (j : Fin inp.nRooms) : List OccupantInfo :=
  ((List.finRange inp.nPersons).filter (fun i => x i j)).map
    (fun i => { id := inp.personId i, name := (inp.personOf i).name,
                gender := (inp.personOf i).gender, role := (inp.personOf i).role,
                class_id := (inp.personOf i).class_id })

/-- The returned allocation: rooms in `room_ids` order, restricted to rooms
that received at least one occupant (the `defaultdict` only ever creates keys
on an append). -/
def extractAllocation (inp : Input)
    (x : Fin inp.nPersons → Fin inp.nRooms → Bool) :
    List (String × List OccupantInfo) :=
  ((List.finRange inp.nRooms).map (fun j => (inp.roomId j, occupantsOf inp x j))).filter
    (fun pr => !pr.2.isEmpty)

/-- Boolean assignment matrix induced by a room choice function:
`x[p,r]` is true exactly when `f` sends `p` to `r`. -/
def toSolX (inp : Input) (f : Fin inp.nPersons → Fin inp.nRooms) :
    Fin inp.nPersons → Fin inp.nRooms → Bool :=
  fun i j => f i == j

/-- Canonical solution induced by a room choice function: gender flags, teacher
flags and student flags are the presence indicators of the induced placement. -/
def toSol (inp : Input) (f : Fin inp.nPersons → Fin inp.nRooms) :
    Sol inp.nPersons inp.nRooms where
  x := toSolX inp f
  y := fun j g => (List.finRange inp.nPersons).any
    (fun i => f i == j && (inp.personOf i).gender == g)
  has_teacher := fun j => inp.teacherIdxs.any (fun i => f i == j)
  has_student := fun j => inp.studentIdxs.any (fun i => f i == j)

/-- Feasibility of a room choice function: its canonical solution satisfies
every hard constraint. -/
def Feasible (inp : Input) (f : Fin inp.nPersons → Fin inp.nRooms) : Prop :=
  HardSat inp (toSol inp f)

instance decFeasible (inp : Input) (f : Fin inp.nPersons → Fin inp.nRooms) :
    Decidable (Feasible inp f) := by
  unfold Feasible; infer_instance

/-- All functions from `Fin n` to `Fin m`, the candidate room choices the
ideal solver searches. -/
def funsList : (n m : Nat) → List (Fin n → Fin m)
  | 0, _ => [fun i => i.elim0]
  | n + 1, m =>
      (List.finRange m).flatMap (fun r => (funsList n m).map (fun f => Fin.cons r f))

/-- The candidate list is complete: it holds every room choice function. -/
theorem mem_funsList : ∀ {n m : Nat} (f : Fin n → Fin m), f ∈ funsList n m := by
  intro n
  induction n with
  | zero =>
    intro m f
    have : f = fun i => i.elim0 := by
      funext i
      exact i.elim0
    simp [funsList, this]
  | succ n ih =>
    intro m f
    have hf : Fin.cons (f 0) (Fin.tail f) = f := Fin.cons_self_tail f
    have : Fin.cons (f 0) (Fin.tail f) ∈ funsList (n + 1) m := by
      simp only [funsList, List.mem_flatMap, List.mem_map]
      exact ⟨f 0, List.mem_finRange _, Fin.tail f, ih _, rfl⟩
    rwa [hf] at this

end Model

/-- The embedded `solve_assignment`: build the model, run the (ideal,
complete) solver, and on feasibility extract the allocation, the achieved
objective and status `OPTIMAL` (CP-SAT code 4); on infeasibility return
`none` — the code's `if result_status not in (OPTIMAL, FEASIBLE): return
None`. -/
def solve_assignment (inp : Input) : Option SolveResult :=
  match ((Model.funsList inp.nPersons inp.nRooms).filter
      (fun f => decide (Model.Feasible inp f))).argmin
      (fun f => Model.minObjective inp (Model.toSolX inp f)) with
  | none => none
  | some f => some
      { allocation := Model.extractAllocation inp (Model.toSolX inp f)
        objective := (Model.minObjective inp (Model.toSolX inp f) : Int)
        status := 4
        stats := { persons := inp.nPersons, rooms := inp.nRooms } }

/-! Concrete instances used by witnesses and counterexamples. -/

/-- Instance with one class split over two one-bed rooms on different
corridors: students `s1`, `s2` of class `7a`, rooms `r1` (corridor `A`) and
`r2` (corridor `B`), each of capacity 1. -/
def inpSplit : Input where
  people :=
    [("s1", { name := "Ali", gender := Gender.m, role := Role.student,
              class_id := some "7a", small_group_max := none }),
     ("s2", { name := "Bilal", gender := Gender.m, role := Role.student,
              class_id := some "7a", small_group_max := none })]
  rooms :=
    [("r1", { name := "R1", capacity := 1, corridor := "A" }),
     ("r2", { name := "R2", capacity := 1, corridor := "B" })]
  forbidden_pairs := []
  corridors := ["A", "B"]
  required_teachers_per_corridor := []

/-- Instance with an empty `people` mapping and one room. -/
def inpNoPeople : Input where
  people := []
  rooms := [("r1", { name := "R1", capacity := 2, corridor := "A" })]
  forbidden_pairs := []
  corridors := ["A"]
  required_teachers_per_corridor := []

/-- Instance with one person and an empty `rooms` mapping. -/
def inpNoRooms : Input where
  people :=
    [("s1", { name := "Ali", gender := Gender.m, role := Role.student,
              class_id := none, small_group_max := none })]
  rooms := []
  forbidden_pairs := []
  corridors := []
  required_teachers_per_corridor := []

/-- Instance with a small-group cap: `s1` caps its room at 2 occupants, the
single room has capacity 3. -/
def inpCap : Input where
  people :=
    [("s1", { name := "Ali", gender := Gender.m, role := Role.student,
              class_id := none, small_group_max := some 2 }),
     ("s2", { name := "Bilal", gender := Gender.m, role := Role.student,
              class_id := none, small_group_max := none })]
  rooms := [("r1", { name := "R1", capacity := 3, corridor := "A" })]
  forbidden_pairs := []
  corridors := ["A"]
  required_teachers_per_corridor := []

/-- Instance with one teacher carrying class affinity `7a`, one student of
class `7a` and two rooms on corridor `A`. -/
def inpTeach : Input where
  people :=
    [("t1", { name := "Roth", gender := Gender.m, role := Role.teacher,
              class_id := some "7a", small_group_max := none }),
     ("s1", { name := "Ali", gender := Gender.m, role := Role.student,
              class_id := some "7a", small_group_max := none })]
  rooms :=
    [("r1", { name := "R1", capacity := 1, corridor := "A" }),
     ("r2", { name := "R2", capacity := 1, corridor := "A" })]
  forbidden_pairs := []
  corridors := ["A"]
  required_teachers_per_corridor := [("A", ["t1"])]

/-! Elementary facts about list sums of indicator values. -/

theorem sumN_nil {α : Type} (f : α → Nat) : sumN ([] : List α) f = 0 := rfl

theorem sumN_cons {α : Type} (a : α) (l : List α) (f : α → Nat) :
    sumN (a :: l) f = f a + sumN l f := rfl

theorem sumZ_nil {α : Type} (f : α → Int) : sumZ ([] : List α) f = 0 := rfl

theorem sumZ_cons {α : Type} (a : α) (l : List α) (f : α → Int) :
    sumZ (a :: l) f = f a + sumZ l f := rfl

theorem sumN_congr {α : Type} {l : List α} {f g : α → Nat}
    (h : ∀ a ∈ l, f a = g a) : sumN l f = sumN l g := by
  unfold sumN
  rw [List.map_congr_left h]

theorem sumN_le_sumN {α : Type} {l : List α} {f g : α → Nat}
    (h : ∀ a ∈ l, f a ≤ g a) : sumN l f ≤ sumN l g :=
  List.sum_le_sum h

theorem sumZ_le_sumZ {α : Type} {l : List α} {f g : α → Int}
    (h : ∀ a ∈ l, f a ≤ g a) : sumZ l f ≤ sumZ l g :=
  List.sum_le_sum h

theorem sumZ_nonneg {α : Type} {l : List α} {f : α → Int}
    (h : ∀ a ∈ l, 0 ≤ f a) : 0 ≤ sumZ l f := by
  refine List.sum_nonneg ?_
  intro z hz
  obtain ⟨a, ha, rfl⟩ := List.mem_map.1 hz
  exact h a ha

theorem sumZ_natCast {α : Type} (l : List α) (f : α → Nat) :
    ((sumN l f : Nat) : Int) = sumZ l (fun a => (f a : Int)) := by
  induction l with
  | nil => rfl
  | cons a l ih => rw [sumN_cons, sumZ_cons, Nat.cast_add, ih]

theorem le_sumN_of_mem {α : Type} {l : List α} {f : α → Nat} {a : α}
    (ha : a ∈ l) : f a ≤ sumN l f := by
  induction l with
  | nil => cases ha
  | cons b l ih =>
    rw [sumN_cons]
    rcases List.mem_cons.1 ha with h | h
    · subst h; exact Nat.le_add_right _ _
    · exact (ih h).trans (Nat.le_add_left _ _)

theorem exists_of_one_le_sumN {α : Type} {l : List α} {f : α → Nat}
    (h : 1 ≤ sumN l f) : ∃ a ∈ l, 1 ≤ f a := by
  induction l with
  | nil => cases h
  | cons b l ih =>
    rw [sumN_cons] at h
    by_cases hb : 1 ≤ f b
    · exact ⟨b, List.mem_cons_self b l, hb⟩
    · have hb0 : f b = 0 := by omega
      rw [hb0, Nat.zero_add] at h
      obtain ⟨a, ha, hfa⟩ := ih h
      exact ⟨a, List.mem_cons_of_mem _ ha, hfa⟩

theorem sumN_toNat_le_length {α : Type} (l : List α) (g : α → Bool) :
    sumN l (fun a => (g a).toNat) ≤ l.length := by
  induction l with
  | nil => exact Nat.le_refl 0
  | cons b l ih =>
    rw [sumN_cons, List.length_cons]
    have : (g b).toNat ≤ 1 := Bool.toNat_le _
    omega

/-- An indicator sum over a list counts the elements passing the test. -/
theorem sumN_toNat_eq_length_filter {α : Type} (l : List α) (p : α → Bool) :
    sumN l (fun a => (p a).toNat) = (l.filter p).length := by
  induction l with
  | nil => rfl
  | cons b l ih =>
    rw [sumN_cons, List.filter_cons]
    cases hb : p b
    · simpa using ih
    · simp only [if_pos, List.length_cons, Bool.toNat_true]
      omega

/-- A count of elements passing the test bounds the indicator sum from below
when every passing element contributes at least one. -/
theorem length_filter_le_sumN {α : Type} {l : List α} {p : α → Bool}
    {f : α → Nat} (h : ∀ a ∈ l, p a = true → 1 ≤ f a) :
    (l.filter p).length ≤ sumN l f := by
  induction l with
  | nil => exact Nat.le_refl 0
  | cons b l ih =>
    rw [sumN_cons, List.filter_cons]
    have ihb := ih (fun a ha hpa => h a (List.mem_cons_of_mem _ ha) hpa)
    cases hb : p b
    · simpa using Nat.le_add_left _ _ |>.trans (Nat.add_le_add_left ihb _) |>.trans_eq rfl
    · have h1 := h b (List.mem_cons_self b l) hb
      simp only [if_pos, List.length_cons]
      omega

theorem filter_beq_of_nodup {α : Type} [DecidableEq α] {l : List α} {a : α}
    (hnd : l.Nodup) (ha : a ∈ l) : l.filter (fun b => a == b) = [a] := by
  induction l with
  | nil => cases ha
  | cons b l ih =>
    rw [List.filter_cons]
    rcases List.mem_cons.1 ha with h | h
    · subst h
      simp only [beq_self_eq_true, if_pos]
      have hnotmem : a ∉ l := (List.nodup_cons.1 hnd).1
      have : l.filter (fun b => a == b) = [] := by
        rw [List.filter_eq_nil_iff]
        intro c hc
        simp only [beq_iff_eq]
        intro hac
        exact hnotmem (hac ▸ hc)
      rw [this]
    · have hab : a ≠ b := by
        rintro rfl
        exact (List.nodup_cons.1 hnd).1 h
      have : (a == b) = false := beq_eq_false_iff_ne.2 hab
      rw [this]
      simpa using ih (List.nodup_cons.1 hnd).2 h

/-- The assignment row of a room choice function sums to one. -/
theorem sumN_finRange_beq {m : Nat} (r : Fin m) :
    sumN (List.finRange m) (fun j => (r == j).toNat) = 1 := by
  rw [sumN_toNat_eq_length_filter,
    filter_beq_of_nodup (List.nodup_finRange m) (List.mem_finRange r)]
  rfl

/-- A row of indicators summing to one has a unique true position. -/
theorem unique_of_sumN_eq_one {m : Nat} {g : Fin m → Bool}
    (h : sumN (List.finRange m) (fun j => (g j).toNat) = 1) :
    ∃ j0, g j0 = true ∧ ∀ j, g j = true → j = j0 := by
  rw [sumN_toNat_eq_length_filter] at h
  obtain ⟨j0, hj0⟩ := List.length_eq_one.1 h
  have hmem : ∀ j, g j = true ↔ j ∈ (List.finRange m).filter g := by
    intro j
    rw [List.mem_filter]
    simp [List.mem_finRange]
  refine ⟨j0, ?_, ?_⟩
  · have : j0 ∈ (List.finRange m).filter g := by rw [hj0]; exact List.mem_singleton.2 rfl
    exact (hmem j0).2 this
  · intro j hj
    have : j ∈ (List.finRange m).filter g := (hmem j).1 hj
    rw [hj0] at this
    exact List.mem_singleton.1 this

namespace Model

open Input

theorem toSolX_eq_true_iff {inp : Input} {f : Fin inp.nPersons → Fin inp.nRooms}
    {i : Fin inp.nPersons} {j : Fin inp.nRooms} :
    toSolX inp f i j = true ↔ f i = j := by
  simp [toSolX]

theorem mem_teacherIdxs {inp : Input} {i : Fin inp.nPersons} :
    i ∈ inp.teacherIdxs ↔ (inp.personOf i).role = Role.teacher := by
  simp [Input.teacherIdxs, List.mem_filter, List.mem_finRange]

theorem mem_studentIdxs {inp : Input} {i : Fin inp.nPersons} :
    i ∈ inp.studentIdxs ↔ (inp.personOf i).role = Role.student := by
  simp [Input.studentIdxs, List.mem_filter, List.mem_finRange]

/-- Every solution of the hard constraints places each person in exactly one
room; reading that room off yields a feasible room choice function whose
induced assignment matrix is the solution's `x`. -/
theorem exists_fun_of_hardSat {inp : Input} {s : Sol inp.nPersons inp.nRooms}
    (h : HardSat inp s) :
    ∃ f : Fin inp.nPersons → Fin inp.nRooms,
      s.x = toSolX inp f ∧ Feasible inp f := by
  obtain ⟨h1, h2, h3, h4, h5, h6, h7, h8⟩ := h
  have hex : ∀ i, ∃ j0, s.x i j0 = true ∧ ∀ j, s.x i j = true → j = j0 :=
    fun i => unique_of_sumN_eq_one (h1 i)
  choose f hf1 hf2 using hex
  have hx : s.x = toSolX inp f := by
    funext i j
    by_cases hj : j = f i
    · subst hj
      rw [hf1]
      simp [toSolX]
    · have hfalse : s.x i j = false := by
        cases hxx : s.x i j
        · rfl
        · exact absurd (hf2 i j hxx) hj
      rw [hfalse, toSolX]
      symm
      simp only [beq_eq_false_iff_ne, ne_eq]
      exact fun hh => hj hh.symm
  have hx' : (toSol inp f).x = s.x := hx.symm
  refine ⟨f, hx, ?_⟩
  unfold Feasible HardSat
  refine ⟨?_, ?_, ?_, ?_, ?_, ?_, ?_, ?_⟩
  · intro i
    exact sumN_finRange_beq (f i)
  · intro j
    rw [show (toSol inp f).x = s.x from hx']
    exact h2 j
  · intro j
    constructor
    · -- at most one gender flag set for the canonical flags
      by_contra hcon
      push_neg at hcon
      have hm : (toSol inp f).y j Gender.m = true := by
        cases hv : (toSol inp f).y j Gender.m
        · rw [hv] at hcon; cases hw : (toSol inp f).y j Gender.w <;>
            rw [hw] at hcon <;> simp at hcon
        · rfl
      have hw : (toSol inp f).y j Gender.w = true := by
        cases hv : (toSol inp f).y j Gender.w
        · rw [hv] at hcon; cases hm2 : (toSol inp f).y j Gender.m <;>
            rw [hm2] at hcon <;> simp at hcon
        · rfl
      obtain ⟨i1, _, hi1⟩ := List.any_eq_true.1 hm
      obtain ⟨i2, _, hi2⟩ := List.any_eq_true.1 hw
      rw [Bool.and_eq_true, beq_iff_eq, beq_iff_eq] at hi1 hi2
      have hx1 : s.x i1 j = true := by
        rw [hx, toSolX, beq_iff_eq]; exact hi1.1
      have hx2 : s.x i2 j = true := by
        rw [hx, toSolX, beq_iff_eq]; exact hi2.1
      have hy1 := (h3 j).2 i1
      have hy2 := (h3 j).2 i2
      rw [hx1, hi1.2] at hy1
      rw [hx2, hi2.2] at hy2
      have hym : s.y j Gender.m = true := by
        cases hv : s.y j Gender.m
        · rw [hv] at hy1; simp at hy1
        · rfl
      have hyw : s.y j Gender.w = true := by
        cases hv : s.y j Gender.w
        · rw [hv] at hy2; simp at hy2
        · rfl
      have := (h3 j).1
      rw [hym, hyw] at this
      simp at this
    · intro i
      cases hc : (toSol inp f).x i j
      · simp
      · have : (toSol inp f).y j (inp.personOf i).gender = true := by
          refine List.any_eq_true.2 ⟨i, List.mem_finRange i, ?_⟩
          rw [Bool.and_eq_true, beq_iff_eq]
          exact ⟨toSolX_eq_true_iff.1 hc, by simp⟩
        rw [this]
  · intro p hp ia ib hia hib j
    have := h4 p hp ia ib hia hib j
    rw [hx] at this
    exact this
  · intro i k hk j
    rw [show (toSol inp f).x = s.x from hx']
    exact h5 i k hk j
  · intro c hc ht hr
    have := h6 c hc ht hr
    rw [hx] at this
    exact this
  · intro c hc t ht it hit hrole
    have := h7 c hc t ht it hit hrole
    rw [hx] at this
    exact this
  · intro j
    refine ⟨?_, ?_, ?_⟩
    · intro i hrole
      cases hc : (toSol inp f).x i j
      · simp
      · have : (toSol inp f).has_teacher j = true := by
          refine List.any_eq_true.2 ⟨i, mem_teacherIdxs.2 hrole, ?_⟩
          rw [beq_iff_eq]
          exact toSolX_eq_true_iff.1 hc
        rw [this]
    · intro i hrole
      cases hc : (toSol inp f).x i j
      · simp
      · have : (toSol inp f).has_student j = true := by
          refine List.any_eq_true.2 ⟨i, mem_studentIdxs.2 hrole, ?_⟩
          rw [beq_iff_eq]
          exact toSolX_eq_true_iff.1 hc
        rw [this]
    · by_contra hcon
      push_neg at hcon
      have hht : (toSol inp f).has_teacher j = true := by
        cases hv : (toSol inp f).has_teacher j
        · rw [hv] at hcon; cases hw : (toSol inp f).has_student j <;>
            rw [hw] at hcon <;> simp at hcon
        · rfl
      have hhs : (toSol inp f).has_student j = true := by
        cases hv : (toSol inp f).has_student j
        · rw [hv] at hcon; cases hw : (toSol inp f).has_teacher j <;>
            rw [hw] at hcon <;> simp at hcon
        · rfl
      obtain ⟨i1, hi1m, hi1⟩ := List.any_eq_true.1 hht
      obtain ⟨i2, hi2m, hi2⟩ := List.any_eq_true.1 hhs
      rw [beq_iff_eq] at hi1 hi2
      have hx1 : s.x i1 j = true := by rw [hx, toSolX, beq_iff_eq]; exact hi1
      have hx2 : s.x i2 j = true := by rw [hx, toSolX, beq_iff_eq]; exact hi2
      have hb1 := (h8 j).1 i1 (mem_teacherIdxs.1 hi1m)
      have hb2 := (h8 j).2.1 i2 (mem_studentIdxs.1 hi2m)
      rw [hx1] at hb1
      rw [hx2] at hb2
      have hT : s.has_teacher j = true := by
        cases hv : s.has_teacher j
        · rw [hv] at hb1; simp at hb1
        · rfl
      have hS : s.has_student j = true := by
        cases hv : s.has_student j
        · rw [hv] at hb2; simp at hb2
        · rfl
      have := (h8 j).2.2
      rw [hT, hS] at this
      simp at this

end Model

namespace Model

open Input

/-- A successful solve is the extraction of some feasible room choice. -/
theorem solve_assignment_eq_some {inp : Input} {res : SolveResult}
    (h : solve_assignment inp = some res) :
    ∃ f, Feasible inp f ∧
      res = { allocation := extractAllocation inp (toSolX inp f),
              objective := (minObjective inp (toSolX inp f) : Int),
              status := 4,
              stats := { persons := inp.nPersons, rooms := inp.nRooms } } := by
  unfold solve_assignment at h
  split at h
  · cases h
  · next f hf =>
    refine ⟨f, ?_, ?_⟩
    · have hmem := List.argmin_mem hf
      have := (List.mem_filter.1 hmem).2
      exact of_decide_eq_true this
    · exact (Option.some.inj h).symm

/-- The ids listed for a room are the ids of the persons placed there. -/
theorem occupantsOf_map_id (inp : Input)
    (x : Fin inp.nPersons → Fin inp.nRooms → Bool) (j : Fin inp.nRooms) :
    (occupantsOf inp x j).map OccupantInfo.id =
      ((List.finRange inp.nPersons).filter (fun i => x i j)).map inp.personId := by
  unfold occupantsOf
  rw [List.map_map]
  rfl

theorem exists_idx_of_mem_ids {inp : Input} {p : String}
    (hp : p ∈ inp.people.map Prod.fst) : ∃ i, inp.personId i = p := by
  obtain ⟨q, hq, hq1⟩ := List.mem_map.1 hp
  obtain ⟨n, hget⟩ := List.mem_iff_get.1 hq
  refine ⟨n, ?_⟩
  show (inp.people.get n).1 = p
  rw [hget]
  exact hq1

theorem personId_inj {inp : Input}
    (hids : (inp.people.map Prod.fst).Nodup) {i1 i2 : Fin inp.nPersons}
    (h : inp.personId i1 = inp.personId i2) : i1 = i2 := by
  have hl : inp.people.length = (inp.people.map Prod.fst).length :=
    (List.length_map _ _).symm
  have e1 : inp.personId i1 =
      (inp.people.map Prod.fst).get ⟨i1.val, hl ▸ i1.isLt⟩ := by
    rw [List.get_map]; rfl
  have e2 : inp.personId i2 =
      (inp.people.map Prod.fst).get ⟨i2.val, hl ▸ i2.isLt⟩ := by
    rw [List.get_map]; rfl
  rw [e1, e2] at h
  have hfin := hids.get_inj_iff.1 h
  have hval := congrArg Fin.val hfin
  exact Fin.ext hval

/-- Under duplicate-free person ids, a person id occurs in the occupant list
of exactly one entry of the extracted allocation: the entry of the room the
choice function assigns. -/
theorem extract_count_one {inp : Input}
    (hids : (inp.people.map Prod.fst).Nodup)
    (f : Fin inp.nPersons → Fin inp.nRooms) {p : String}
    (hp : p ∈ inp.people.map Prod.fst) :
    ((extractAllocation inp (toSolX inp f)).filter
      (fun pr => (pr.2.map OccupantInfo.id).contains p)).length = 1 := by
  obtain ⟨i0, hi0⟩ := exists_idx_of_mem_ids hp
  have hmem0 : i0 ∈ (List.finRange inp.nPersons).filter
      (fun i => toSolX inp f i (f i0)) := by
    rw [List.mem_filter]
    exact ⟨List.mem_finRange i0, by rw [toSolX]; simp⟩
  have hsnap : ∃ o, o ∈ occupantsOf inp (toSolX inp f) (f i0) := by
    unfold occupantsOf
    exact ⟨_, List.mem_map.2 ⟨i0, hmem0, rfl⟩⟩
  have hne : (occupantsOf inp (toSolX inp f) (f i0)).isEmpty = false := by
    obtain ⟨o, ho⟩ := hsnap
    cases hl : occupantsOf inp (toSolX inp f) (f i0) with
    | nil => rw [hl] at ho; cases ho
    | cons a l => rfl
  unfold extractAllocation
  rw [List.filter_filter, List.filter_map, List.length_map]
  have hpoint : ∀ j ∈ List.finRange inp.nRooms,
      ((fun (a : String × List OccupantInfo) =>
          ((a.2.map OccupantInfo.id).contains p && !a.2.isEmpty)) ∘
        (fun j => (inp.roomId j, occupantsOf inp (toSolX inp f) j))) j =
        (f i0 == j) := by
    intro j _
    simp only [Function.comp_apply]
    by_cases hj : f i0 = j
    · subst hj
      have hcont : ((occupantsOf inp (toSolX inp f) (f i0)).map
          OccupantInfo.id).contains p = true := by
        rw [occupantsOf_map_id, List.contains_iff_exists_mem_beq]
        exact ⟨p, List.mem_map.2 ⟨i0, hmem0, hi0⟩, by simp⟩
      rw [hcont, hne]
      simp
    · have hcont : ((occupantsOf inp (toSolX inp f) j).map
          OccupantInfo.id).contains p = false := by
        rw [occupantsOf_map_id]
        rw [Bool.eq_false_iff]
        intro hcon
        rw [List.contains_iff_exists_mem_beq] at hcon
        obtain ⟨q, hqmem, hbeq⟩ := hcon
        obtain ⟨i, himem, hiq⟩ := List.mem_map.1 hqmem
        have hpq : q = p := (beq_iff_eq.1 hbeq).symm
        have hii : i = i0 := personId_inj hids (by rw [hiq, hpq, hi0])
        subst hii
        have := (List.mem_filter.1 himem).2
        rw [toSolX_eq_true_iff] at this
        exact hj this
      rw [hcont, Bool.false_and]
      symm
      rw [beq_eq_false_iff_ne]
      exact hj
  rw [List.filter_congr hpoint,
    filter_beq_of_nodup (List.nodup_finRange _) (List.mem_finRange (f i0))]
  rfl

/-- Every entry of the extracted allocation lists at least one occupant. -/
theorem extract_entry_nonempty {inp : Input}
    {x : Fin inp.nPersons → Fin inp.nRooms → Bool}
    {pr : String × List OccupantInfo}
    (h : pr ∈ extractAllocation inp x) : pr.2 ≠ [] := by
  unfold extractAllocation at h
  have hq := (List.mem_filter.1 h).2
  intro hnil
  rw [hnil] at hq
  simp at hq

end Model

namespace Model

open Input

theorem finRange_persons_nil {inp : Input} (hp : inp.people = []) :
    List.finRange inp.nPersons = [] := by
  have h0 : inp.nPersons = 0 := by
    show inp.people.length = 0
    rw [hp]
    rfl
  rw [List.eq_nil_iff_forall_not_mem]
  intro i _
  exact absurd i.isLt (by omega)

/-- With no persons every room choice function is feasible: each hard
constraint quantifies over persons or over sums of person indicators. -/
theorem feasible_of_no_people {inp : Input} (hp : inp.people = [])
    (f : Fin inp.nPersons → Fin inp.nRooms) : Feasible inp f := by
  have hfr := finRange_persons_nil hp
  have hvac : ∀ i : Fin inp.nPersons, False := by
    intro i
    have := List.mem_finRange i
    rw [hfr] at this
    cases this
  have hocc : ∀ j, occupancy inp (toSol inp f).x j = 0 := by
    intro j
    unfold occupancy
    rw [hfr, sumN_nil]
  have hteach : inp.teacherIdxs = [] := by
    rw [Input.teacherIdxs, hfr]
    rfl
  have hstud : inp.studentIdxs = [] := by
    rw [Input.studentIdxs, hfr]
    rfl
  have hpidx : ∀ t : String, inp.pidx t = none := by
    intro t
    rw [Input.pidx, hfr]
    rfl
  unfold Feasible HardSat
  refine ⟨?_, ?_, ?_, ?_, ?_, ?_, ?_, ?_⟩
  · intro i; exact absurd (hvac i) not_false
  · intro j
    rw [hocc j]
    exact Nat.zero_le _
  · intro j
    constructor
    · show ((List.finRange inp.nPersons).any _).toNat +
        ((List.finRange inp.nPersons).any _).toNat ≤ 1
      rw [hfr]
      exact Nat.zero_le 1 |>.trans (Nat.le_refl 1)
    · intro i; exact absurd (hvac i) not_false
  · intro p hmem ia ib hia
    rw [hpidx] at hia
    cases hia
  · intro i; exact absurd (hvac i) not_false
  · intro c hc ht hr
    exact absurd hteach ht
  · intro c hc t ht it hit
    rw [hpidx] at hit
    cases hit
  · intro j
    refine ⟨?_, ?_, ?_⟩
    · intro i; exact absurd (hvac i) not_false
    · intro i; exact absurd (hvac i) not_false
    · show (inp.teacherIdxs.any _).toNat + (inp.studentIdxs.any _).toNat ≤ 1
      rw [hteach, hstud]
      exact Nat.zero_le 1 |>.trans (Nat.le_refl 1)

/-- With no persons the extracted allocation is empty. -/
theorem extract_nil_of_no_people {inp : Input} (hp : inp.people = [])
    (x : Fin inp.nPersons → Fin inp.nRooms → Bool) :
    extractAllocation inp x = [] := by
  have hfr := finRange_persons_nil hp
  unfold extractAllocation
  rw [List.filter_eq_nil_iff]
  intro pr hpr
  obtain ⟨j, _, rfl⟩ := List.mem_map.1 hpr
  have : occupantsOf inp x j = [] := by
    unfold occupantsOf
    rw [hfr]
    rfl
  rw [this]
  simp

/-- With no persons the solve succeeds and returns an empty allocation. -/
theorem solve_of_no_people {inp : Input} (hp : inp.people = []) :
    ∃ res, solve_assignment inp = some res ∧ res.allocation = [] := by
  have hnil : inp.nPersons = 0 := by
    show inp.people.length = 0
    rw [hp]
    rfl
  have f0 : Fin inp.nPersons → Fin inp.nRooms := by
    intro i
    exact absurd i.isLt (by omega)
  have hmem : f0 ∈ (funsList inp.nPersons inp.nRooms).filter
      (fun f => decide (Feasible inp f)) := by
    rw [List.mem_filter]
    exact ⟨mem_funsList f0, decide_eq_true (feasible_of_no_people hp f0)⟩
  have hfilter : (funsList inp.nPersons inp.nRooms).filter
      (fun f => decide (Feasible inp f)) ≠ [] :=
    List.ne_nil_of_mem hmem
  cases harg : ((funsList inp.nPersons inp.nRooms).filter
      (fun f => decide (Feasible inp f))).argmin
      (fun f => minObjective inp (toSolX inp f)) with
  | none => exact absurd (List.argmin_eq_none.1 harg) hfilter
  | some g =>
    have halloc := extract_nil_of_no_people hp (toSolX inp g)
    refine ⟨{ allocation := extractAllocation inp (toSolX inp g),
              objective := (minObjective inp (toSolX inp g) : Int),
              status := 4,
              stats := { persons := inp.nPersons, rooms := inp.nRooms } },
      ?_, halloc⟩
    unfold solve_assignment
    rw [harg]

/-- With at least one person and no rooms, no room choice function exists and
the solve reports infeasibility. -/
theorem solve_of_no_rooms {inp : Input} (hp : inp.people ≠ [])
    (hr : inp.rooms = []) : solve_assignment inp = none := by
  have hpos : 0 < inp.nPersons := by
    show 0 < inp.people.length
    exact List.length_pos.2 hp
  have hzero : inp.nRooms = 0 := by
    show inp.rooms.length = 0
    rw [hr]
    rfl
  have hnofun : ∀ f : Fin inp.nPersons → Fin inp.nRooms, False := by
    intro f
    exact absurd (f ⟨0, hpos⟩).isLt (by omega)
  have hfilter : (funsList inp.nPersons inp.nRooms).filter
      (fun f => decide (Feasible inp f)) = [] := by
    rw [List.eq_nil_iff_forall_not_mem]
    intro f _
    exact hnofun f
  unfold solve_assignment
  rw [hfilter]
  rfl

end Model

theorem sumN_eq_zero {α : Type} {l : List α} {f : α → Nat}
    (h : ∀ a ∈ l, f a = 0) : sumN l f = 0 := by
  induction l with
  | nil => rfl
  | cons b l ih =>
    rw [sumN_cons, h b (List.mem_cons_self b l),
      ih (fun a ha => h a (List.mem_cons_of_mem _ ha))]

theorem sumZ_congr {α : Type} {l : List α} {f g : α → Int}
    (h : ∀ a ∈ l, f a = g a) : sumZ l f = sumZ l g := by
  unfold sumZ
  rw [List.map_congr_left h]

theorem sumZ_zero {α : Type} (l : List α) : sumZ l (fun _ => (0 : Int)) = 0 := by
  induction l with
  | nil => rfl
  | cons b l ih => rw [sumZ_cons, ih, Int.add_zero]

namespace Model

open Input

theorem occupancy_pos_of_x_true {inp : Input}
    {x : Fin inp.nPersons → Fin inp.nRooms → Bool} {i : Fin inp.nPersons}
    {j : Fin inp.nRooms} (h : x i j = true) : 1 ≤ occupancy inp x j := by
  have hle : (x i j).toNat ≤ occupancy inp x j := by
    unfold occupancy
    exact @le_sumN_of_mem (Fin inp.nPersons) (List.finRange inp.nPersons)
      (fun i2 => (x i2 j).toNat) i (List.mem_finRange i)
  rw [h] at hle
  exact hle

theorem classesInRoom_nil_of_no_classes {inp : Input}
    (hcl : inp.classes = []) (x : Fin inp.nPersons → Fin inp.nRooms → Bool)
    (j : Fin inp.nRooms) : classesInRoom inp x j = [] := by
  unfold classesInRoom
  rw [hcl]
  rfl

theorem teacherCount_zero_of_no_teachers {inp : Input}
    (ht : inp.teacherIdxs = []) (x : Fin inp.nPersons → Fin inp.nRooms → Bool)
    (j : Fin inp.nRooms) : teacherCount inp x j = 0 := by
  unfold teacherCount
  rw [ht]
  rfl

/-- Any assignment of the auxiliary variables satisfying their constraints
yields an objective value at least the closed-form minimum: the class-mix and
teacher-sharing terms are forced up to their floors, and the cross-gender and
mismatch terms are nonnegative. -/
theorem objValue_ge_minObjective {inp : Input}
    {s : Sol inp.nPersons inp.nRooms} {a : Aux inp.nPersons inp.nRooms}
    (ha : ObjConstraints inp s a) :
    (minObjective inp s.x : Int) ≤ objValue inp a := by
  obtain ⟨haZ, haOcc, haDom, haLow, haUp, haBG, haET, haCC, haTC, haM⟩ := ha
  -- class-mix basket
  have hclass : ((sumN (List.finRange inp.nRooms)
      (fun j => 3 * ((classesInRoom inp s.x j).length - 1)) : Nat) : Int) ≤
      (if inp.classes.isEmpty then 0 else
        sumZ (List.finRange inp.nRooms)
          (fun j => (a.extra_classes j : Int) * 3)) := by
    cases hcl : inp.classes.isEmpty
    · -- classes exist
      rw [if_neg (by exact Bool.false_ne_true)]
      have hne : inp.classes ≠ [] := by
        intro hnil
        rw [hnil] at hcl
        simp at hcl
      rw [sumZ_natCast]
      refine sumZ_le_sumZ ?_
      intro j _
      have hlow := haLow hne j
      have hlen : (classesInRoom inp s.x j).length ≤
          sumN inp.classes (fun k => (a.z j k).toNat) := by
        unfold classesInRoom
        refine length_filter_le_sumN ?_
        intro k hk hpres
        obtain ⟨i, _, hi⟩ := List.any_eq_true.1 hpres
        rw [Bool.and_eq_true] at hi
        have := haZ j k hk i hi.1
        rw [hi.2] at this
        exact this
      omega
    · -- no classes: left side vanishes
      rw [if_pos rfl]
      have hnil : inp.classes = [] := List.isEmpty_iff.1 hcl
      have : sumN (List.finRange inp.nRooms)
          (fun j => 3 * ((classesInRoom inp s.x j).length - 1)) = 0 := by
        refine sumN_eq_zero ?_
        intro j _
        rw [classesInRoom_nil_of_no_classes hnil]
        rfl
      rw [this]
      exact le_refl 0
  -- teacher-sharing basket
  have hteach : ((sumN (List.finRange inp.nRooms)
      (fun j => 2 * (teacherCount inp s.x j - 1)) : Nat) : Int) ≤
      (if inp.teacherIdxs.isEmpty then 0 else
        sumZ (List.finRange inp.nRooms)
          (fun j => (a.extra_teachers j : Int) * 2)) := by
    cases ht : inp.teacherIdxs.isEmpty
    · rw [if_neg (by exact Bool.false_ne_true)]
      have hne : inp.teacherIdxs ≠ [] := by
        intro hnil
        rw [hnil] at ht
        simp at ht
      rw [sumZ_natCast]
      refine sumZ_le_sumZ ?_
      intro j _
      have := (haET hne j).2
      omega
    · rw [if_pos rfl]
      have hnil : inp.teacherIdxs = [] := List.isEmpty_iff.1 ht
      have : sumN (List.finRange inp.nRooms)
          (fun j => 2 * (teacherCount inp s.x j - 1)) = 0 := by
        refine sumN_eq_zero ?_
        intro j _
        rw [teacherCount_zero_of_no_teachers hnil]
      rw [this]
      exact le_refl 0
  have hbg : 0 ≤ sumZ (List.finRange inp.nRooms)
      (fun j => ((a.both_gender j).toNat : Int) * 1000) := by
    refine sumZ_nonneg ?_
    intro j _
    positivity
  have hmm : 0 ≤ sumZ (mismatchKeys inp)
      (fun ic => ((a.mismatch ic.1 ic.2).toNat : Int) * 5) := by
    refine sumZ_nonneg ?_
    intro ic _
    positivity
  unfold minObjective objValue
  push_cast
  push_cast at hclass hteach
  omega

/-- The auxiliary assignment an optimizing solver settles on for a fixed
occupancy matrix: presence indicators for `z` and `teacher_on_c`, the exact
occupancy indicator for `occupied`, the floors for the two counter variables,
constant 1 for the only lower-bounded `class_on_c`, and 0 for `both_gender`
and `mismatch`. -/
def canonAux (inp : Input) (s : Sol inp.nPersons inp.nRooms) :
    Aux inp.nPersons inp.nRooms where
  z := fun j k => (List.finRange inp.nPersons).any
    (fun i => inp.isStudentOfClass i k && s.x i j)
  occupied := fun j => decide (1 ≤ occupancy inp s.x j)
  extra_classes := fun j => (classesInRoom inp s.x j).length - 1
  both_gender := fun _ => false
  extra_teachers := fun j => teacherCount inp s.x j - 1
  class_on_c := fun _ _ => true
  teacher_on_c := fun i c => (inp.roomsOnCorridor c).any (fun j => s.x i j)
  mismatch := fun _ _ => false

/-- The canonical auxiliary assignment satisfies every auxiliary constraint. -/
theorem canonAux_objConstraints {inp : Input}
    {s : Sol inp.nPersons inp.nRooms} (hs : HardSat inp s) :
    ObjConstraints inp s (canonAux inp s) := by
  obtain ⟨h1, h2, h3, h4, h5, h6, h7, h8⟩ := hs
  refine ⟨?_, ?_, ?_, ?_, ?_, ?_, ?_, ?_, ?_, ?_⟩
  · -- cZ
    intro j k hk i hstud
    cases hx : s.x i j
    · simp
    · have : (canonAux inp s).z j k = true := by
        refine List.any_eq_true.2 ⟨i, List.mem_finRange i, ?_⟩
        rw [Bool.and_eq_true]
        exact ⟨hstud, hx⟩
      rw [this]
  · -- cOccupied
    intro j
    constructor
    · intro htrue
      exact of_decide_eq_true htrue
    · intro hfalse
      have := of_decide_eq_false hfalse
      omega
  · -- domain of extra_classes
    intro j
    have hdef : (canonAux inp s).extra_classes j =
        (classesInRoom inp s.x j).length - 1 := rfl
    have : (classesInRoom inp s.x j).length ≤ inp.classes.length :=
      List.length_filter_le _ _
    omega
  · -- lower bound of extra_classes
    intro hne j
    have hcount : sumN inp.classes (fun k => ((canonAux inp s).z j k).toNat) =
        (classesInRoom inp s.x j).length := by
      unfold classesInRoom
      exact sumN_toNat_eq_length_filter inp.classes _
    have hdef : (canonAux inp s).extra_classes j =
        (classesInRoom inp s.x j).length - 1 := rfl
    rw [hcount]
    omega
  · -- upper bound of extra_classes
    intro j
    by_cases hlen : (classesInRoom inp s.x j).length = 0
    · rw [show (canonAux inp s).extra_classes j =
        (classesInRoom inp s.x j).length - 1 from rfl]
      omega
    · have hnil : classesInRoom inp s.x j ≠ [] := by
        intro hn
        rw [hn] at hlen
        exact hlen rfl
      obtain ⟨k, hk⟩ := List.exists_mem_of_ne_nil _ hnil
      have hkf := hk
      unfold classesInRoom at hkf
      have hpres := (List.mem_filter.1 hkf).2
      obtain ⟨i, _, hi⟩ := List.any_eq_true.1 hpres
      rw [Bool.and_eq_true] at hi
      have hocc : 1 ≤ occupancy inp s.x j := occupancy_pos_of_x_true hi.2
      have hoccb : (canonAux inp s).occupied j = true := decide_eq_true hocc
      rw [show ((canonAux inp s).occupied j).toNat = 1 from by rw [hoccb]; rfl]
      have hdef : (canonAux inp s).extra_classes j =
        (classesInRoom inp s.x j).length - 1 := rfl
      have : (classesInRoom inp s.x j).length ≤ inp.classes.length :=
        List.length_filter_le _ _
      omega
  · -- both_gender
    intro j
    have := (h3 j).1
    refine ⟨?_, ?_, ?_⟩
    · show ((s.y j Gender.m).toNat + (s.y j Gender.w).toNat : Int) -
        ((false : Bool)).toNat ≤ 1
      have hf : ((false : Bool)).toNat = 0 := rfl
      omega
    · exact Nat.zero_le _
    · exact Nat.zero_le _
  · -- extra_teachers
    intro hne j
    have hle : teacherCount inp s.x j ≤ inp.teacherIdxs.length := by
      unfold teacherCount
      exact sumN_toNat_le_length _ _
    have hdef : (canonAux inp s).extra_teachers j =
        teacherCount inp s.x j - 1 := rfl
    constructor
    · omega
    · omega
  · -- class_on_c
    intro c hc k hk j hj i hstud
    show (s.x i j).toNat ≤ (true : Bool).toNat
    exact Bool.toNat_le _
  · -- teacher_on_c
    intro i hrole c hc j hj
    cases hx : s.x i j
    · simp
    · have : (canonAux inp s).teacher_on_c i c = true :=
        List.any_eq_true.2 ⟨j, hj, hx⟩
      rw [this]
  · -- mismatch
    intro i hrole k hk hk0 hkc c hc
    refine ⟨Nat.zero_le _, ?_, ?_⟩
    · show ((false : Bool).toNat : Int) ≤ 1 - ((true : Bool)).toNat
      have hf : ((false : Bool)).toNat = 0 := rfl
      have ht : ((true : Bool)).toNat = 1 := rfl
      omega
    · show (((canonAux inp s).teacher_on_c i c).toNat : Int) -
        ((true : Bool)).toNat ≤ ((false : Bool)).toNat
      have hf : ((false : Bool)).toNat = 0 := rfl
      have ht : ((true : Bool)).toNat = 1 := rfl
      have := Bool.toNat_le ((canonAux inp s).teacher_on_c i c)
      omega

set_option maxRecDepth 4000 in
/-- At the canonical auxiliary assignment the objective evaluates to the
closed-form minimum. -/
theorem canonAux_objValue (inp : Input) (s : Sol inp.nPersons inp.nRooms) :
    objValue inp (canonAux inp s) = (minObjective inp s.x : Int) := by
  have hclass : (if inp.classes.isEmpty then 0 else
      sumZ (List.finRange inp.nRooms)
        (fun j => (((canonAux inp s).extra_classes j : Nat) : Int) * 3)) =
      ((sumN (List.finRange inp.nRooms)
        (fun j => 3 * ((classesInRoom inp s.x j).length - 1)) : Nat) : Int) := by
    cases hcl : inp.classes.isEmpty
    · rw [if_neg (by exact Bool.false_ne_true)]
      rw [sumZ_natCast]
      refine sumZ_congr ?_
      intro j _
      rw [show (canonAux inp s).extra_classes j =
        (classesInRoom inp s.x j).length - 1 from rfl]
      push_cast
      ring
    · rw [if_pos rfl]
      have hnil : inp.classes = [] := List.isEmpty_iff.1 hcl
      rw [sumN_eq_zero]
      · rfl
      · intro j _
        rw [classesInRoom_nil_of_no_classes hnil]
        rfl
  have hteach : (if inp.teacherIdxs.isEmpty then 0 else
      sumZ (List.finRange inp.nRooms)
        (fun j => (((canonAux inp s).extra_teachers j : Nat) : Int) * 2)) =
      ((sumN (List.finRange inp.nRooms)
        (fun j => 2 * (teacherCount inp s.x j - 1)) : Nat) : Int) := by
    cases ht : inp.teacherIdxs.isEmpty
    · rw [if_neg (by exact Bool.false_ne_true)]
      rw [sumZ_natCast]
      refine sumZ_congr ?_
      intro j _
      rw [show (canonAux inp s).extra_teachers j =
        teacherCount inp s.x j - 1 from rfl]
      push_cast
      ring
    · rw [if_pos rfl]
      have hnil : inp.teacherIdxs = [] := List.isEmpty_iff.1 ht
      rw [sumN_eq_zero]
      · rfl
      · intro j _
        rw [teacherCount_zero_of_no_teachers hnil]
  have hbg : sumZ (List.finRange inp.nRooms)
      (fun j => (((canonAux inp s).both_gender j).toNat : Int) * 1000) = 0 := by
    have h1 : sumZ (List.finRange inp.nRooms)
        (fun j => (((canonAux inp s).both_gender j).toNat : Int) * 1000) =
        sumZ (List.finRange inp.nRooms) (fun _ => (0 : Int)) :=
      sumZ_congr (fun j _ => rfl)
    rw [h1, sumZ_zero]
  have hmm : sumZ (mismatchKeys inp)
      (fun ic => (((canonAux inp s).mismatch ic.1 ic.2).toNat : Int) * 5) = 0 := by
    have h1 : sumZ (mismatchKeys inp)
        (fun ic => (((canonAux inp s).mismatch ic.1 ic.2).toNat : Int) * 5) =
        sumZ (mismatchKeys inp) (fun _ => (0 : Int)) :=
      sumZ_congr (fun ic _ => rfl)
    rw [h1, sumZ_zero]
  unfold objValue minObjective
  rw [hclass, hteach, hbg, hmm]
  push_cast
  omega

end Model

/-- Modelled from the spec: the class-split-across-corridors penalty that the
spec objective table lists with weight 4 — per class `k`,
`max(0, corridors_hosting_k - 1)`.  No corresponding term exists anywhere in
the code; this definition only serves to compare the claim with the code's
objective. -/
def specClassSplitPenalty (inp : Input)
    (x : Fin inp.nPersons → Fin inp.nRooms → Bool) : Nat :=
  sumN inp.classes (fun k =>
    (inp.corridors.filter (fun c =>
      (inp.roomsOnCorridor c).any (fun j =>
        (List.finRange inp.nPersons).any (fun i =>
          inp.isStudentOfClass i k && x i j)))).length - 1)

/-- C1 (amended): the minimization objective built by `solve_assignment`
contains no class-split-across-corridors term.  For every solution of the
hard constraints, the objective minimized over the auxiliary variables equals
3 per extra class in a room plus 2 per extra teacher in a room
(`minObjective`): that value is attained by some auxiliary assignment and no
auxiliary assignment goes below it. -/
theorem C1_no_class_split_in_objective (inp : Input)
    (s : Sol inp.nPersons inp.nRooms) (hs : Model.HardSat inp s) :
    (∃ a, Model.ObjConstraints inp s a ∧
        Model.objValue inp a = (Model.minObjective inp s.x : Int)) ∧
    (∀ a, Model.ObjConstraints inp s a →
        (Model.minObjective inp s.x : Int) ≤ Model.objValue inp a) :=
  ⟨⟨Model.canonAux inp s, Model.canonAux_objConstraints hs,
      Model.canonAux_objValue inp s⟩,
    fun _ ha => Model.objValue_ge_minObjective ha⟩

/-- Witness for C1: the class-split instance with a concrete feasible
solution. -/
theorem C1_no_class_split_in_objective_witness :
    Model.HardSat inpSplit (Model.toSol inpSplit (fun i => i)) ∧
    ((∃ a, Model.ObjConstraints inpSplit (Model.toSol inpSplit (fun i => i)) a ∧
        Model.objValue inpSplit a =
          (Model.minObjective inpSplit
            (Model.toSol inpSplit (fun i => i)).x : Int)) ∧
      (∀ a, Model.ObjConstraints inpSplit (Model.toSol inpSplit (fun i => i)) a →
        (Model.minObjective inpSplit
            (Model.toSol inpSplit (fun i => i)).x : Int) ≤
          Model.objValue inpSplit a)) :=
  ⟨by decide, C1_no_class_split_in_objective inpSplit _ (by decide)⟩

/-- Counterexample for C1 as stated: on `inpSplit` the reported objective is
0, yet every solution of the hard constraints hosts class `7a` on both
corridors, so an objective containing the claimed weight-4 split term would
report at least 4 there. -/
theorem C1_counterexample :
    (solve_assignment inpSplit).map SolveResult.objective = some 0 ∧
    (∀ s : Sol inpSplit.nPersons inpSplit.nRooms, Model.HardSat inpSplit s →
      1 ≤ specClassSplitPenalty inpSplit s.x) := by
  constructor
  · decide
  · intro s hs
    obtain ⟨f, hx, hf⟩ := Model.exists_fun_of_hardSat hs
    have hgen : ∀ g : Fin inpSplit.nPersons → Fin inpSplit.nRooms,
        Model.Feasible inpSplit g →
        1 ≤ specClassSplitPenalty inpSplit (Model.toSolX inpSplit g) := by decide
    rw [hx]
    exact hgen f hf

/-- C2 (amended): `solve_assignment` does not fail fast on empty input.
With an empty people mapping the model is trivially satisfiable and a present
result with an empty allocation is returned; with people but no rooms the
assignment constraints are unsatisfiable and the absent result comes from the
solver's infeasibility status. -/
theorem C2_empty_input_behavior (inp : Input) :
    (inp.people = [] →
      ∃ res, solve_assignment inp = some res ∧ res.allocation = []) ∧
    (inp.people ≠ [] → inp.rooms = [] → solve_assignment inp = none) :=
  ⟨fun hp => Model.solve_of_no_people hp,
   fun hp hr => Model.solve_of_no_rooms hp hr⟩

/-- Witness for C2 at the two concrete empty-input instances. -/
theorem C2_empty_input_behavior_witness :
    (∃ res, solve_assignment inpNoPeople = some res ∧ res.allocation = []) ∧
    solve_assignment inpNoRooms = none :=
  ⟨(C2_empty_input_behavior inpNoPeople).1 rfl,
   (C2_empty_input_behavior inpNoRooms).2 (by decide) rfl⟩

/-- Counterexample for C2 as stated: with an empty people mapping and one
room the function returns a present result (status OPTIMAL, empty
allocation), not an absent one. -/
theorem C2_counterexample :
    solve_assignment inpNoPeople =
      some { allocation := [], objective := 0, status := 4,
             stats := { persons := 0, rooms := 1 } } := by
  decide

/-- The result `solve_assignment` returns on `inpSplit`. -/
def splitResult : SolveResult where
  allocation :=
    [("r1", [{ id := "s1", name := "Ali", gender := Gender.m,
               role := Role.student, class_id := some "7a" }]),
     ("r2", [{ id := "s2", name := "Bilal", gender := Gender.m,
               role := Role.student, class_id := some "7a" }])]
  objective := 0
  status := 4
  stats := { persons := 2, rooms := 2 }

/-- C3: in every present result, each input person id occurs in the occupant
list of exactly one room entry of the allocation. -/
theorem C3_each_person_in_exactly_one_room (inp : Input) (res : SolveResult)
    (h : solve_assignment inp = some res)
    (hids : (inp.people.map Prod.fst).Nodup) :
    ∀ p ∈ inp.people.map Prod.fst,
      (res.allocation.filter
        (fun pr => (pr.2.map OccupantInfo.id).contains p)).length = 1 := by
  intro p hp
  obtain ⟨f, hfeas, rfl⟩ := Model.solve_assignment_eq_some h
  exact Model.extract_count_one hids f hp

/-- Witness for C3 on the concrete split instance and person `s1`. -/
theorem C3_each_person_in_exactly_one_room_witness :
    (splitResult.allocation.filter
      (fun pr => (pr.2.map OccupantInfo.id).contains "s1")).length = 1 :=
  C3_each_person_in_exactly_one_room inpSplit splitResult (by decide) (by decide)
    "s1" (by decide)

/-- C10: in every present result, every entry of the allocation lists at
least one occupant — unoccupied rooms are omitted rather than mapped to an
empty list. -/
theorem C10_allocation_omits_empty_rooms (inp : Input) (res : SolveResult)
    (h : solve_assignment inp = some res) :
    ∀ pr ∈ res.allocation, pr.2 ≠ [] := by
  obtain ⟨f, hfeas, rfl⟩ := Model.solve_assignment_eq_some h
  intro pr hpr
  exact Model.extract_entry_nonempty hpr

/-- Witness for C10 on the concrete split instance. -/
theorem C10_allocation_omits_empty_rooms_witness :
    ("r1", [({ id := "s1", name := "Ali", gender := Gender.m,
               role := Role.student, class_id := some "7a" } : OccupantInfo)]).2 ≠
      ([] : List OccupantInfo) :=
  C10_allocation_omits_empty_rooms inpSplit splitResult (by decide) _
    (by decide)

/-- C4: for a person with a positive small-group cap `k`, the room holding
that person has occupancy at most `k`; the constraint
`occupancy - k <= (1 - x) * capacity` is implied by the capacity constraint
when the person is absent and equivalent to `occupancy <= k` when present. -/
theorem C4_small_group_cap (inp : Input) (s : Sol inp.nPersons inp.nRooms)
    (hs : Model.HardSat inp s) (i : Fin inp.nPersons) (k : Int)
    (hk : (inp.personOf i).small_group_max = some k) (hkpos : 1 ≤ k) :
    (∀ j, s.x i j = true → (Model.occupancy inp s.x j : Int) ≤ k) ∧
    (∀ j, s.x i j = false →
      (Model.occupancy inp s.x j : Int) - k ≤
        (1 - ((s.x i j).toNat : Int)) * ((inp.roomOf j).capacity : Int)) ∧
    (∀ j, s.x i j = true →
      ((Model.occupancy inp s.x j : Int) - k ≤
          (1 - ((s.x i j).toNat : Int)) * ((inp.roomOf j).capacity : Int) ↔
        (Model.occupancy inp s.x j : Int) ≤ k)) := by
  obtain ⟨h1, h2, h3, h4, h5, h6, h7, h8⟩ := hs
  have hmem : k ∈ (inp.personOf i).small_group_max := by
    rw [hk]; rfl
  refine ⟨?_, ?_, ?_⟩
  · intro j hxt
    have hc := h5 i k hmem j
    rw [hxt] at hc
    have hred : (1 - (((true : Bool)).toNat : Int)) *
        ((inp.roomOf j).capacity : Int) = 0 := by
      norm_num
    rw [hred] at hc
    omega
  · intro j hxf
    have hcap := h2 j
    rw [hxf]
    have hred : (1 - (((false : Bool)).toNat : Int)) *
        ((inp.roomOf j).capacity : Int) = ((inp.roomOf j).capacity : Int) := by
      norm_num
    rw [hred]
    omega
  · intro j hxt
    rw [hxt]
    have hred : (1 - (((true : Bool)).toNat : Int)) *
        ((inp.roomOf j).capacity : Int) = 0 := by
      norm_num
    rw [hred]
    omega

/-- Witness for C4: person `s1` caps its room at 2 in the concrete cap
instance. -/
theorem C4_small_group_cap_witness :
    (∀ j, (Model.toSol inpCap (fun _ => ⟨0, by decide⟩)).x ⟨0, by decide⟩ j = true →
      (Model.occupancy inpCap
        (Model.toSol inpCap (fun _ => ⟨0, by decide⟩)).x j : Int) ≤ 2) ∧
    (∀ j, (Model.toSol inpCap (fun _ => ⟨0, by decide⟩)).x ⟨0, by decide⟩ j = false →
      (Model.occupancy inpCap
          (Model.toSol inpCap (fun _ => ⟨0, by decide⟩)).x j : Int) - 2 ≤
        (1 - (((Model.toSol inpCap (fun _ => ⟨0, by decide⟩)).x
            ⟨0, by decide⟩ j).toNat : Int)) *
          ((inpCap.roomOf j).capacity : Int)) ∧
    (∀ j, (Model.toSol inpCap (fun _ => ⟨0, by decide⟩)).x ⟨0, by decide⟩ j = true →
      ((Model.occupancy inpCap
          (Model.toSol inpCap (fun _ => ⟨0, by decide⟩)).x j : Int) - 2 ≤
        (1 - (((Model.toSol inpCap (fun _ => ⟨0, by decide⟩)).x
            ⟨0, by decide⟩ j).toNat : Int)) *
          ((inpCap.roomOf j).capacity : Int) ↔
        (Model.occupancy inpCap
          (Model.toSol inpCap (fun _ => ⟨0, by decide⟩)).x j : Int) ≤ 2)) :=
  C4_small_group_cap inpCap _ (by decide) ⟨0, by decide⟩ 2 (by decide) (by decide)

/-- C5: two occupants of the same room always share a gender — forced by the
per-room bound on the gender flags together with the occupancy-to-flag
implications. -/
theorem C5_room_single_gender (inp : Input) (s : Sol inp.nPersons inp.nRooms)
    (hs : Model.HardSat inp s) (j : Fin inp.nRooms)
    (i1 i2 : Fin inp.nPersons) (hx1 : s.x i1 j = true)
    (hx2 : s.x i2 j = true) :
    (inp.personOf i1).gender = (inp.personOf i2).gender := by
  obtain ⟨h1, h2, h3, h4, h5, h6, h7, h8⟩ := hs
  have hy1 := (h3 j).2 i1
  have hy2 := (h3 j).2 i2
  rw [hx1] at hy1
  rw [hx2] at hy2
  have hg1 : s.y j (inp.personOf i1).gender = true := by
    cases hv : s.y j (inp.personOf i1).gender
    · rw [hv] at hy1; simp at hy1
    · rfl
  have hg2 : s.y j (inp.personOf i2).gender = true := by
    cases hv : s.y j (inp.personOf i2).gender
    · rw [hv] at hy2; simp at hy2
    · rfl
  have hsum := (h3 j).1
  cases hc1 : (inp.personOf i1).gender <;> cases hc2 : (inp.personOf i2).gender
  · rfl
  · rw [hc1] at hg1
    rw [hc2] at hg2
    rw [hg1, hg2] at hsum
    simp at hsum
  · rw [hc1] at hg1
    rw [hc2] at hg2
    rw [hg1, hg2] at hsum
    simp at hsum
  · rfl

/-- Witness for C5: the two occupants of the single room of the cap
instance. -/
theorem C5_room_single_gender_witness :
    (inpCap.personOf ⟨0, by decide⟩).gender =
      (inpCap.personOf ⟨1, by decide⟩).gender :=
  C5_room_single_gender inpCap (Model.toSol inpCap (fun _ => ⟨0, by decide⟩))
    (by decide) ⟨0, by decide⟩ ⟨0, by decide⟩ ⟨1, by decide⟩
    (by decide) (by decide)

/-- C6: when at least one teacher exists, every corridor of the corridors
list that has at least one room hosts at least one teacher. -/
theorem C6_corridor_teacher_coverage (inp : Input)
    (s : Sol inp.nPersons inp.nRooms) (hs : Model.HardSat inp s)
    (hT : ∃ i, (inp.personOf i).role = Role.teacher) (c : String)
    (hc : c ∈ inp.corridors) (hr : ∃ j, (inp.roomOf j).corridor = c) :
    ∃ i j, (inp.personOf i).role = Role.teacher ∧
      (inp.roomOf j).corridor = c ∧ s.x i j = true := by
  obtain ⟨h1, h2, h3, h4, h5, h6, h7, h8⟩ := hs
  obtain ⟨i0, hi0⟩ := hT
  obtain ⟨j0, hj0⟩ := hr
  have hTne : inp.teacherIdxs ≠ [] :=
    List.ne_nil_of_mem (Model.mem_teacherIdxs.2 hi0)
  have hj0mem : j0 ∈ inp.roomsOnCorridor c := by
    rw [Input.roomsOnCorridor, List.mem_filter]
    exact ⟨List.mem_finRange j0, by rw [hj0]; simp⟩
  have hrne : inp.roomsOnCorridor c ≠ [] := List.ne_nil_of_mem hj0mem
  have hsum := h6 c hc hTne hrne
  obtain ⟨t, htmem, hts⟩ := exists_of_one_le_sumN hsum
  obtain ⟨j, hjmem, hjs⟩ := exists_of_one_le_sumN hts
  have hxt : s.x t j = true := by
    cases hv : s.x t j
    · rw [hv] at hjs; simp at hjs
    · rfl
  refine ⟨t, j, Model.mem_teacherIdxs.1 htmem, ?_, hxt⟩
  have := (List.mem_filter.1 hjmem).2
  exact beq_iff_eq.1 this

/-- Witness for C6: the teacher of the teaching instance covers corridor
`A`. -/
theorem C6_corridor_teacher_coverage_witness :
    ∃ i j, (inpTeach.personOf i).role = Role.teacher ∧
      (inpTeach.roomOf j).corridor = "A" ∧
      (Model.toSol inpTeach (fun i => i)).x i j = true :=
  C6_corridor_teacher_coverage inpTeach (Model.toSol inpTeach (fun i => i))
    (by decide) ⟨⟨0, by decide⟩, by decide⟩ "A" (by decide)
    ⟨⟨0, by decide⟩, by decide⟩

/-- C7: for a teacher with a usable class affinity and any corridor, the
three mismatch inequalities force the mismatch variable to be exactly the
product `teacher_on_c * (1 - class_on_c)` on boolean values. -/
theorem C7_mismatch_is_and_not (inp : Input) (s : Sol inp.nPersons inp.nRooms)
    (a : Aux inp.nPersons inp.nRooms) (ha : Model.ObjConstraints inp s a)
    (i : Fin inp.nPersons) (hrole : (inp.personOf i).role = Role.teacher)
    (k : String) (hk : (inp.personOf i).class_id = some k) (hk0 : k ≠ "")
    (hkc : k ∈ inp.classes) (c : String) (hc : c ∈ inp.corridors) :
    (a.mismatch i c).toNat =
      (a.teacher_on_c i c).toNat * (1 - (a.class_on_c c k).toNat) := by
  obtain ⟨haZ, haOcc, haDom, haLow, haUp, haBG, haET, haCC, haTC, haM⟩ := ha
  have hmemk : k ∈ (inp.personOf i).class_id := by rw [hk]; rfl
  obtain ⟨hm1, hm2, hm3⟩ := haM i hrole k hmemk hk0 hkc c hc
  revert hm1 hm2 hm3
  cases a.mismatch i c <;> cases a.teacher_on_c i c <;>
    cases a.class_on_c c k <;> decide

/-- Witness for C7 on the teaching instance with the canonical auxiliary
assignment. -/
theorem C7_mismatch_is_and_not_witness :
    ((Model.canonAux inpTeach (Model.toSol inpTeach (fun i => i))).mismatch
        ⟨0, by decide⟩ "A").toNat =
      ((Model.canonAux inpTeach
          (Model.toSol inpTeach (fun i => i))).teacher_on_c
        ⟨0, by decide⟩ "A").toNat *
        (1 - ((Model.canonAux inpTeach
            (Model.toSol inpTeach (fun i => i))).class_on_c "A" "7a").toNat) :=
  C7_mismatch_is_and_not inpTeach (Model.toSol inpTeach (fun i => i))
    (Model.canonAux inpTeach (Model.toSol inpTeach (fun i => i)))
    (Model.canonAux_objConstraints (by decide)) ⟨0, by decide⟩ (by decide)
    "7a" (by decide) (by decide) (by decide) "A" (by decide)

/-- C8: a forbidden pair one of whose ids is not a key of the people mapping
contributes no constraint: prepending it to the pair list leaves the hard
constraint system unchanged. -/
theorem C8_forbidden_pair_missing_id_skipped (inp : Input) (a b : String)
    (hmiss : inp.pidx a = none ∨ inp.pidx b = none)
    (s : Sol inp.nPersons inp.nRooms) :
    Model.HardSat
        { inp with forbidden_pairs := (a, b) :: inp.forbidden_pairs } s ↔
      Model.HardSat inp s := by
  constructor
  · rintro ⟨h1, h2, h3, h4, h5, h6, h7, h8⟩
    refine ⟨h1, h2, h3, ?_, h5, h6, h7, h8⟩
    intro p hp ia ib hia hib j
    exact h4 p (List.mem_cons_of_mem _ hp) ia ib hia hib j
  · rintro ⟨h1, h2, h3, h4, h5, h6, h7, h8⟩
    refine ⟨h1, h2, h3, ?_, h5, h6, h7, h8⟩
    intro p hp ia ib hia hib j
    rcases List.mem_cons.1 hp with hpe | hpm
    · subst hpe
      have hia' : inp.pidx a = some ia := hia
      have hib' : inp.pidx b = some ib := hib
      rcases hmiss with hna | hnb
      · rw [hna] at hia'
        cases hia'
      · rw [hnb] at hib'
        cases hib'
    · exact h4 p hpm ia ib hia hib j

/-- Witness for C8: adding the pair `(s1, zz)` with unknown id `zz` on the
cap instance changes nothing. -/
theorem C8_forbidden_pair_missing_id_skipped_witness :
    Model.HardSat
        { inpCap with forbidden_pairs := ("s1", "zz") :: inpCap.forbidden_pairs }
        (Model.toSol inpCap (fun _ => ⟨0, by decide⟩)) ↔
      Model.HardSat inpCap (Model.toSol inpCap (fun _ => ⟨0, by decide⟩)) :=
  C8_forbidden_pair_missing_id_skipped inpCap "s1" "zz" (Or.inr (by decide)) _

namespace Model

open Input

theorem requiredFor_cons_pos (inp : Input) (c c0 : String)
    (l : List String) (R : List (String × List String))
    (h : (c == c0) = true) :
    Input.requiredFor
      { inp with required_teachers_per_corridor := (c, l) :: R } c0 = l := by
  unfold Input.requiredFor
  rw [List.find?_cons_of_pos _ (by exact h)]
  rfl

theorem requiredFor_cons_neg (inp : Input) (c c0 : String)
    (l : List String) (R : List (String × List String))
    (h : (c == c0) = false) :
    Input.requiredFor
        { inp with required_teachers_per_corridor := (c, l) :: R } c0 =
      Input.requiredFor
        { inp with required_teachers_per_corridor := R } c0 := by
  unfold Input.requiredFor
  rw [List.find?_cons_of_neg _ (by rw [show ((c, l).1 == c0) = false from h]; exact Bool.false_ne_true)]

theorem not_teacher_of_isTeacherId_false {inp : Input} {t : String}
    {it : Fin inp.nPersons} (hT : inp.isTeacherId t = false)
    (hit : inp.pidx t = some it) : (inp.personOf it).role ≠ Role.teacher := by
  intro hrole
  unfold Input.isTeacherId at hT
  rw [hit] at hT
  simp [hrole] at hT

end Model

/-- C9: a `required_teachers_per_corridor` entry whose id is not a
role-teacher person is silently ignored, and entries under corridor labels
absent from the corridors list are never consulted: in both cases the hard
constraint system is unchanged. -/
theorem C9_required_entries_ignored (inp : Input)
    (s : Sol inp.nPersons inp.nRooms) :
    (∀ c t ts rest, inp.isTeacherId t = false →
      (Model.HardSat { inp with required_teachers_per_corridor :=
          (c, t :: ts) :: rest } s ↔
        Model.HardSat { inp with required_teachers_per_corridor :=
          (c, ts) :: rest } s)) ∧
    (∀ c2 ts2, c2 ∉ inp.corridors →
      (Model.HardSat { inp with required_teachers_per_corridor :=
          (c2, ts2) :: inp.required_teachers_per_corridor } s ↔
        Model.HardSat inp s)) := by
  constructor
  · intro c t ts rest hT
    constructor
    · rintro ⟨h1, h2, h3, h4, h5, h6, h7, h8⟩
      refine ⟨h1, h2, h3, h4, h5, h6, ?_, h8⟩
      intro c0 hc0 t2 ht2 it hit hrole
      by_cases hcc : (c == c0) = true
      · have hA := Model.requiredFor_cons_pos inp c c0 (t :: ts) rest hcc
        have hB := Model.requiredFor_cons_pos inp c c0 ts rest hcc
        rw [hB] at ht2
        exact h7 c0 hc0 t2 (by rw [hA]; exact List.mem_cons_of_mem _ ht2)
          it hit hrole
      · have hcc2 : (c == c0) = false := by
          cases hv : (c == c0)
          · rfl
          · exact absurd hv hcc
        have hA := Model.requiredFor_cons_neg inp c c0 (t :: ts) rest hcc2
        have hB := Model.requiredFor_cons_neg inp c c0 ts rest hcc2
        rw [hB] at ht2
        exact h7 c0 hc0 t2 (by rw [hA]; exact ht2) it hit hrole
    · rintro ⟨h1, h2, h3, h4, h5, h6, h7, h8⟩
      refine ⟨h1, h2, h3, h4, h5, h6, ?_, h8⟩
      intro c0 hc0 t2 ht2 it hit hrole
      by_cases hcc : (c == c0) = true
      · have hA := Model.requiredFor_cons_pos inp c c0 (t :: ts) rest hcc
        have hB := Model.requiredFor_cons_pos inp c c0 ts rest hcc
        rw [hA] at ht2
        rcases List.mem_cons.1 ht2 with hte | htm
        · subst hte
          have hit2 : inp.pidx t2 = some it := hit
          have hrole2 : (inp.personOf it).role = Role.teacher := hrole
          exact absurd hrole2 (Model.not_teacher_of_isTeacherId_false hT hit2)
        · exact h7 c0 hc0 t2 (by rw [hB]; exact htm) it hit hrole
      · have hcc2 : (c == c0) = false := by
          cases hv : (c == c0)
          · rfl
          · exact absurd hv hcc
        have hA := Model.requiredFor_cons_neg inp c c0 (t :: ts) rest hcc2
        have hB := Model.requiredFor_cons_neg inp c c0 ts rest hcc2
        rw [hA] at ht2
        exact h7 c0 hc0 t2 (by rw [hB]; exact ht2) it hit hrole
  · intro c2 ts2 hc2
    constructor
    · rintro ⟨h1, h2, h3, h4, h5, h6, h7, h8⟩
      refine ⟨h1, h2, h3, h4, h5, h6, ?_, h8⟩
      intro c0 hc0 t2 ht2 it hit hrole
      have hne : (c2 == c0) = false := by
        rw [beq_eq_false_iff_ne]
        intro he
        exact hc2 (he ▸ hc0)
      have hC := Model.requiredFor_cons_neg inp c2 c0 ts2 inp.required_teachers_per_corridor hne
      have heta : Input.requiredFor { inp with required_teachers_per_corridor :=
          inp.required_teachers_per_corridor } c0 = Input.requiredFor inp c0 := rfl
      exact h7 c0 hc0 t2 (by rw [hC, heta]; exact ht2) it hit hrole
    · rintro ⟨h1, h2, h3, h4, h5, h6, h7, h8⟩
      refine ⟨h1, h2, h3, h4, h5, h6, ?_, h8⟩
      intro c0 hc0 t2 ht2 it hit hrole
      have hne : (c2 == c0) = false := by
        rw [beq_eq_false_iff_ne]
        intro he
        exact hc2 (he ▸ hc0)
      have hC := Model.requiredFor_cons_neg inp c2 c0 ts2 inp.required_teachers_per_corridor hne
      have heta : Input.requiredFor { inp with required_teachers_per_corridor :=
          inp.required_teachers_per_corridor } c0 = Input.requiredFor inp c0 := rfl
      rw [hC, heta] at ht2
      exact h7 c0 hc0 t2 ht2 it hit hrole

/-- Witness for C9 on the teaching instance: a student id in the required
list and an unknown corridor label are both ignored. -/
theorem C9_required_entries_ignored_witness :
    (Model.HardSat { inpTeach with required_teachers_per_corridor :=
        [("A", "s1" :: ["t1"])] } (Model.toSol inpTeach (fun i => i)) ↔
      Model.HardSat { inpTeach with required_teachers_per_corridor :=
        [("A", ["t1"])] } (Model.toSol inpTeach (fun i => i))) ∧
    (Model.HardSat { inpTeach with required_teachers_per_corridor :=
        ("Z", ["t1"]) :: inpTeach.required_teachers_per_corridor }
        (Model.toSol inpTeach (fun i => i)) ↔
      Model.HardSat inpTeach (Model.toSol inpTeach (fun i => i))) :=
  ⟨(C9_required_entries_ignored inpTeach
      (Model.toSol inpTeach (fun i => i))).1 "A" "s1" ["t1"] [] (by decide),
   (C9_required_entries_ignored inpTeach
      (Model.toSol inpTeach (fun i => i))).2 "Z" ["t1"] (by decide)⟩
